import Mathlib

/-!
Shallow embedding of the core data model of LIME (line modeling engine),
taken from `src/src/lime.h`, together with models of the spec-described
behaviour of the translation units that the header declares.  Machine
doubles are modelled as exact rationals (ℚ); derived real-valued
quantities (Euclidean lengths) live in ℝ.
-/

namespace Lime

/-! ### Constants from `src/src/lime.h` -/

def DIM : Nat := 3

def max_phot : Nat := 10000

def ininphot : Nat := 9

def minpop : ℚ := 1 / 1000000

def MAXITER : Nat := 50

def goal : Nat := 50

def NUM_GRID_STAGES : Nat := 4

/-! Bit locations for the grid data-stage mask (`lime.h` lines 83–91). -/

def DS_bit_x : Nat := 0

def DS_bit_neighbours : Nat := 1

def DS_bit_velocity : Nat := 2

def DS_bit_density : Nat := 3

def DS_bit_abundance : Nat := 4

def DS_bit_turb_doppler : Nat := 5

def DS_bit_temperatures : Nat := 6

def DS_bit_ACOEFF : Nat := 7

def DS_bit_populations : Nat := 8

/-! Data-stage masks (`lime.h` lines 93–107), transcribed macro by macro. -/

def DS_mask_x : Nat := 1 <<< DS_bit_x

def DS_mask_neighbours : Nat := (1 <<< DS_bit_neighbours) ||| DS_mask_x

def DS_mask_velocity : Nat := (1 <<< DS_bit_velocity) ||| DS_mask_x

def DS_mask_density : Nat := (1 <<< DS_bit_density) ||| DS_mask_x

def DS_mask_abundance : Nat := (1 <<< DS_bit_abundance) ||| DS_mask_x

def DS_mask_turb_doppler : Nat := (1 <<< DS_bit_turb_doppler) ||| DS_mask_x

def DS_mask_temperatures : Nat := (1 <<< DS_bit_temperatures) ||| DS_mask_x

def DS_mask_ACOEFF : Nat := (1 <<< DS_bit_ACOEFF) ||| DS_mask_neighbours ||| DS_mask_velocity

def DS_mask_1 : Nat := DS_mask_x

def DS_mask_2 : Nat := DS_mask_neighbours

def DS_mask_3 : Nat :=
  DS_mask_2 ||| DS_mask_density ||| DS_mask_abundance ||| DS_mask_turb_doppler |||
    DS_mask_temperatures ||| DS_mask_ACOEFF

def DS_mask_populations : Nat := (1 <<< DS_bit_populations) ||| DS_mask_3

def DS_mask_4 : Nat := DS_mask_populations

def DS_mask_all : Nat := DS_mask_populations

/-- The data-stage mask reached after stage `k` of grid construction,
`k ∈ {1,2,3,4}` (macros `DS_mask_1 .. DS_mask_4` of `lime.h`). -/
def stageMask : Nat → Nat
  | 1 => DS_mask_1
  | 2 => DS_mask_2
  | 3 => DS_mask_3
  | 4 => DS_mask_4
  | _ => 0

/-- Modelled from the spec: body of `allBitsSet` (declared in `lime.h` line 238;
the implementing translation unit is not among the sources).  True when every
bit of `mask` is set in `flags`. -/
def allBitsSet (flags mask : Nat) : Bool := flags &&& mask == mask

/-- Modelled from the spec: body of `anyBitSet` (declared in `lime.h` line 239;
implementation not among the sources).  True when some bit of `mask` is set in
`flags`. -/
def anyBitSet (flags mask : Nat) : Bool := flags &&& mask != 0

/-- Modelled from the spec: body of `bitIsSet` (declared in `lime.h` line 240;
implementation not among the sources).  True when bit `bitI` of `flags` is set. -/
def bitIsSet (flags bitI : Nat) : Bool := flags.testBit bitI

/-- The nine data-stage bits of `lime.h`, one per attribute group, in the
order {positions, neighbours, velocity, density, abundance, turbulent Doppler
width, temperatures, velocity-coefficients, populations}. -/
def dsBits : List Nat :=
  [DS_bit_x, DS_bit_neighbours, DS_bit_velocity, DS_bit_density, DS_bit_abundance,
    DS_bit_turb_doppler, DS_bit_temperatures, DS_bit_ACOEFF, DS_bit_populations]

/-! ### Statistical-equilibrium population update (stateq) -/

/-- Modelled from the spec: `stateq` (declared in `lime.h` line 321;
implementation not among the sources) clips each solved population component
to the interval `[minpop, 1]`.  Any component below the floor is clamped to
the floor before division. -/
def clampPop (p : ℚ) : ℚ := max minpop (min p 1)

/-- Modelled from the spec: after solving the rate matrix, `stateq` clips the
populations to `[minpop, 1]` and renormalises them — divides each clamped
component by the sum of the clamped components. -/
def stateqNormalise (pops : List ℚ) : List ℚ :=
  (pops.map clampPop).map (fun p => p / (pops.map clampPop).sum)

/-! ### Theorems: mask structure (C2, C10, C6) -/

/-- Claim C2. The four data-stage masks are monotone: for stages `j ≤ k` in
{1,2,3,4}, every bit of `DS_mask_j` is also set in `DS_mask_k`; hence a grid
at stage `≥ k` (whose mask is a later stage's mask) has all bits of `mask_k`
set. -/
theorem stageMask_monotone :
    ∀ k < 5, ∀ j < 5, 1 ≤ j → j ≤ k → allBitsSet (stageMask k) (stageMask j) = true := by
  decide

/-- Witness for `stageMask_monotone` at stages `j = 1`, `k = 4`. -/
theorem stageMask_monotone_witness :
    4 < 5 ∧ 1 < 5 ∧ 1 ≤ 1 ∧ 1 ≤ 4 ∧ allBitsSet (stageMask 4) (stageMask 1) = true :=
  ⟨by decide, by decide, by decide, by decide,
    stageMask_monotone 4 (by decide) 1 (by decide) (by decide) (by decide)⟩

/-- Claim C10. Every compound data-stage mask contains the positions mask
`DS_mask_x` (bit 0); `DS_mask_ACOEFF` additionally contains both
`DS_mask_neighbours` and `DS_mask_velocity`, so validity of the
velocity-coefficients bit entails positions, neighbours and velocity validity. -/
theorem compound_masks_imply_positions :
    allBitsSet DS_mask_neighbours DS_mask_x = true ∧
    allBitsSet DS_mask_velocity DS_mask_x = true ∧
    allBitsSet DS_mask_density DS_mask_x = true ∧
    allBitsSet DS_mask_abundance DS_mask_x = true ∧
    allBitsSet DS_mask_turb_doppler DS_mask_x = true ∧
    allBitsSet DS_mask_temperatures DS_mask_x = true ∧
    allBitsSet DS_mask_ACOEFF DS_mask_x = true ∧
    allBitsSet DS_mask_ACOEFF DS_mask_neighbours = true ∧
    allBitsSet DS_mask_ACOEFF DS_mask_velocity = true := by
  decide

/-- If every bit of `mask` is set in `flags`, then each individual bit of
`mask` is a bit of `flags`: the gate `allBitsSet` really guards all reads. -/
theorem allBitsSet_implies_bitIsSet (flags mask b : Nat)
    (hall : allBitsSet flags mask = true) (hb : bitIsSet mask b = true) :
    bitIsSet flags b = true := by
  have hmask : flags &&& mask = mask := by
    simpa [allBitsSet] using hall
  have hb' : mask.testBit b = true := hb
  have : (flags &&& mask).testBit b = true := by rw [hmask]; exact hb'
  rw [Nat.testBit_and] at this
  exact (Bool.and_eq_true _ _ |>.mp this).1

/-- Claim C6. The data-completeness bitmask has exactly one distinct bit per
attribute group — the nine bits are exactly 0 through 8, pairwise distinct —
and a downstream stage gated by `allBitsSet` on a required mask can only read
attributes whose bit really is set in the grid's mask. -/
theorem ds_bits_distinct_and_gate :
    dsBits = [0, 1, 2, 3, 4, 5, 6, 7, 8] ∧ dsBits.Nodup ∧
    (∀ flags mask b, allBitsSet flags mask = true → bitIsSet mask b = true →
      bitIsSet flags b = true) := by
  refine ⟨by decide, by decide, ?_⟩
  exact allBitsSet_implies_bitIsSet

/-- Witness for `ds_bits_distinct_and_gate`: a reader requiring the stage-3
mask on a stage-4 grid may read the velocity attribute, whose bit is indeed
set. -/
theorem ds_bits_distinct_and_gate_witness :
    allBitsSet DS_mask_all DS_mask_3 = true ∧
    bitIsSet DS_mask_3 DS_bit_velocity = true ∧
    bitIsSet DS_mask_all DS_bit_velocity = true :=
  ⟨by decide, by decide,
    ds_bits_distinct_and_gate.2.2 DS_mask_all DS_mask_3 DS_bit_velocity
      (by decide) (by decide)⟩

/-! ### Theorems: population invariants (C1) -/

/-- Dividing every element of a list of rationals by `s` divides its sum by `s`. -/
theorem list_sum_map_div (l : List ℚ) (s : ℚ) :
    (l.map (fun x => x / s)).sum = l.sum / s := by
  induction l with
  | nil => simp
  | cons a t ih => simp [ih, add_div]

/-- Claim C1, counterexample. Clamping to the floor `minpop` and then dividing by
the sum can leave a component strictly below `minpop`: with two levels and raw
populations `[0, 1]`, the clamped vector is `[minpop, 1]`, whose sum exceeds
one, so after division the small component is `1/1000001 < minpop`. -/
theorem stateq_component_below_minpop :
    ∃ q ∈ stateqNormalise [0, 1], q < minpop := by
  have h0 : clampPop 0 = minpop := by
    rw [clampPop, min_eq_left zero_le_one, max_eq_left (by norm_num [minpop])]
  have h1 : clampPop 1 = 1 := by
    rw [clampPop, min_self, max_eq_right (by norm_num [minpop])]
  refine ⟨minpop / (minpop + 1), ?_, ?_⟩
  · simp [stateqNormalise, h0, h1]
  · rw [minpop]; norm_num

/-- Claim C1, amended. After the stateq update the populations are strictly
positive, sum to one exactly (hence within `1e-9`), each clamped component is
at least `minpop` before the division, and after the division each component
is at least `minpop` divided by the number of levels — but not necessarily at
least `minpop` itself. -/
theorem stateqNormalise_invariants (pops : List ℚ) (h : pops ≠ []) :
    (stateqNormalise pops).sum = 1 ∧
    (∀ q ∈ stateqNormalise pops, 0 < q ∧ minpop / pops.length ≤ q) ∧
    (∀ q ∈ pops.map clampPop, minpop ≤ q) := by
  have hminpop_pos : (0 : ℚ) < minpop := by norm_num [minpop]
  have hminpop_le_one : minpop ≤ (1 : ℚ) := by norm_num [minpop]
  have hc_lb : ∀ x ∈ pops.map clampPop, minpop ≤ x := by
    intro x hx
    obtain ⟨p, _, rfl⟩ := List.mem_map.mp hx
    exact le_max_left _ _
  have hc_ub : ∀ x ∈ pops.map clampPop, x ≤ 1 := by
    intro x hx
    obtain ⟨p, _, rfl⟩ := List.mem_map.mp hx
    exact max_le hminpop_le_one (min_le_right _ _)
  have hc_pos : ∀ x ∈ pops.map clampPop, 0 < x :=
    fun x hx => lt_of_lt_of_le hminpop_pos (hc_lb x hx)
  have hc_ne : pops.map clampPop ≠ [] := by
    simpa [List.map_eq_nil_iff] using h
  have hs_pos : 0 < (pops.map clampPop).sum :=
    List.sum_pos _ hc_pos hc_ne
  have hlen_pos : (0 : ℚ) < (pops.length : ℚ) := by
    exact_mod_cast List.length_pos.mpr h
  have hs_le : (pops.map clampPop).sum ≤ (pops.length : ℚ) := by
    have h1 := List.sum_le_card_nsmul (pops.map clampPop) 1 hc_ub
    simpa [List.length_map, nsmul_eq_mul] using h1
  refine ⟨?_, ?_, hc_lb⟩
  · rw [stateqNormalise, list_sum_map_div]
    exact div_self (ne_of_gt hs_pos)
  · intro q hq
    obtain ⟨x, hx, rfl⟩ := List.mem_map.mp hq
    refine ⟨div_pos (hc_pos x hx) hs_pos, ?_⟩
    calc minpop / (pops.length : ℚ)
        ≤ minpop / (pops.map clampPop).sum :=
          div_le_div_of_nonneg_left hminpop_pos.le hs_pos hs_le
      _ ≤ x / (pops.map clampPop).sum :=
          (div_le_div_iff_of_pos_right hs_pos).mpr (hc_lb x hx)

/-- Witness for `stateqNormalise_invariants` on the two-level vector `[0, 1]`. -/
theorem stateqNormalise_invariants_witness :
    ([(0 : ℚ), 1] ≠ []) ∧
    ((stateqNormalise [0, 1]).sum = 1 ∧
      (∀ q ∈ stateqNormalise [0, 1], 0 < q ∧ minpop / ([(0 : ℚ), 1].length) ≤ q) ∧
      (∀ q ∈ [(0 : ℚ), 1].map clampPop, minpop ≤ q)) :=
  ⟨by decide, stateqNormalise_invariants [0, 1] (by decide)⟩

/-! ### Iteration controller (levelPops) and photon budget -/

/-- A vertex has met its convergence counter once `conv` has reached `goal`
consecutive passes below tolerance. -/
def vertexConverged (conv : Nat) : Bool := goal ≤ conv

/-- Modelled from the spec: the controller's global convergence test — every
vertex has met its convergence counter. -/
def allConverged (convs : List Nat) : Bool := convs.all vertexConverged

/-- Modelled from the spec: the body of the `levelPops` iteration loop
(declared in `lime.h` line 279; implementation not among the sources).  With
`n` iterations of budget left it runs one photon/stateq pass over all
vertices, exits if every vertex has converged, and otherwise recurses.
Returns the final state and the number of passes performed. -/
def solveLoop (pass : List Nat → List Nat) : Nat → List Nat → List Nat × Nat
  | 0, s => (s, 0)
  | n + 1, s =>
    let s1 := pass s
    if allConverged s1 then (s1, 1)
    else
      let r := solveLoop pass n s1
      (r.1, r.2 + 1)

/-- Modelled from the spec: `levelPops` drives alternating photon/stateq
passes (abstracted as `pass`, acting on the per-vertex convergence counters)
for up to `MAXITER` iterations. -/
def levelPops (pass : List Nat → List Nat) (s : List Nat) : List Nat × Nat :=
  solveLoop pass MAXITER s

/-- The solve loop performs at most `n` passes, and stops early only because
every vertex converged. -/
theorem solveLoop_bounded (pass : List Nat → List Nat) :
    ∀ (n : Nat) (s : List Nat),
      (solveLoop pass n s).2 ≤ n ∧
        (allConverged (solveLoop pass n s).1 = true ∨ (solveLoop pass n s).2 = n) := by
  intro n
  induction n with
  | zero => intro s; exact ⟨Nat.le_refl 0, Or.inr rfl⟩
  | succ m ih =>
    intro s
    simp only [solveLoop]
    by_cases hc : allConverged (pass s) = true
    · rw [if_pos hc]
      exact ⟨Nat.succ_le_succ (Nat.zero_le m), Or.inl hc⟩
    · rw [if_neg hc]
      obtain ⟨hle, hor⟩ := ih (pass s)
      refine ⟨Nat.succ_le_succ hle, ?_⟩
      rcases hor with hconv | heq
      · exact Or.inl hconv
      · exact Or.inr (by rw [heq])

/-- Claim C5. The iteration controller always terminates: for every model
(abstracted by the pass function and initial counters) it performs at most
`MAXITER = 50` passes, and the only exit conditions are that every vertex has
met its convergence counter or that the `MAXITER` budget is exhausted. -/
theorem levelPops_terminates (pass : List Nat → List Nat) (s : List Nat) :
    MAXITER = 50 ∧ (levelPops pass s).2 ≤ MAXITER ∧
      (allConverged (levelPops pass s).1 = true ∨ (levelPops pass s).2 = MAXITER) :=
  ⟨rfl, (solveLoop_bounded pass MAXITER s).1, (solveLoop_bounded pass MAXITER s).2⟩

/-- Modelled from the spec: per-pass photon-budget update.  A vertex whose
convergence counter regressed receives `extra` more photons on the next pass,
capped at `max_phot`; other vertices keep their budget. -/
def updateNphot (nphot : Nat) (regressed : Bool) (extra : Nat) : Nat :=
  if regressed then min (nphot + extra) max_phot else nphot

/-- Modelled from the spec: the photon budget of one vertex across passes.
It starts at `ininphot` on the first pass; `reg t` tells whether the vertex's
convergence counter regressed during pass `t` and `extra t` is the growth
granted for that regression. -/
def nphotSeq (reg : Nat → Bool) (extra : Nat → Nat) : Nat → Nat
  | 0 => ininphot
  | t + 1 => updateNphot (nphotSeq reg extra t) (reg t) (extra t)

/-- Claim C7. The photon budget starts at `ininphot = 9`, never exceeds
`max_phot = 10000` on any pass, changes only for vertices whose convergence
counter regressed, and never shrinks. -/
theorem nphotSeq_budget (reg : Nat → Bool) (extra : Nat → Nat) :
    nphotSeq reg extra 0 = ininphot ∧ ininphot = 9 ∧ max_phot = 10000 ∧
    (∀ t, nphotSeq reg extra t ≤ max_phot) ∧
    (∀ t, reg t = false → nphotSeq reg extra (t + 1) = nphotSeq reg extra t) ∧
    (∀ t, nphotSeq reg extra t ≤ nphotSeq reg extra (t + 1)) := by
  have hub : ∀ t, nphotSeq reg extra t ≤ max_phot := by
    intro t
    induction t with
    | zero => simp only [nphotSeq]; decide
    | succ m ih =>
      by_cases hr : reg m = true
      · simp only [nphotSeq, updateNphot, hr, if_pos]
        exact Nat.min_le_right _ _
      · simp only [nphotSeq, updateNphot, hr]
        simpa using ih
  refine ⟨rfl, rfl, rfl, hub, ?_, ?_⟩
  · intro t ht
    simp [nphotSeq, updateNphot, ht]
  · intro t
    by_cases hr : reg t = true
    · simp only [nphotSeq, updateNphot, hr, if_pos]
      exact Nat.le_min.mpr ⟨Nat.le_add_right _ _, hub t⟩
    · simp [nphotSeq, updateNphot, hr]

/-- Witness for `nphotSeq_budget`: with no regression on pass 0 the budget is
still `ininphot` on pass 1. -/
theorem nphotSeq_budget_witness :
    ((fun _ : Nat => false) 0 = false) ∧
      nphotSeq (fun _ => false) (fun _ => 10) 1 = nphotSeq (fun _ => false) (fun _ => 10) 0 :=
  ⟨rfl, (nphotSeq_budget (fun _ => false) (fun _ => 10)).2.2.2.2.1 0 rfl⟩

/-! ### Edge geometry (distCalc and neighbour extraction) -/

/-- A point of the model volume, with exact coordinates standing in for the
`double x[DIM]` of `struct grid` (`DIM = 3`). -/
abbrev Point3 := ℚ × ℚ × ℚ

/-- Squared Euclidean separation of two vertices. -/
def ds2 (p q : Point3) : ℚ :=
  (q.1 - p.1) ^ 2 + (q.2.1 - p.2.1) ^ 2 + (q.2.2 - p.2.2) ^ 2

/-- Modelled from the spec: the scalar edge length stored by `distCalc`
(declared in `lime.h` line 259; implementation not among the sources) — the
Euclidean distance between the two endpoints. -/
noncomputable def edgeLen (p q : Point3) : ℝ := Real.sqrt ((ds2 p q : ℚ) : ℝ)

/-- Modelled from the spec: the unit direction stored by `distCalc` for the
edge from `p` to `q` — the coordinate difference divided by the edge length. -/
noncomputable def edgeDir (p q : Point3) : ℝ × ℝ × ℝ :=
  (((q.1 : ℝ) - (p.1 : ℝ)) / edgeLen p q,
   ((q.2.1 : ℝ) - (p.2.1 : ℝ)) / edgeLen p q,
   ((q.2.2 : ℝ) - (p.2.2 : ℝ)) / edgeLen p q)

/-- Modelled from the spec: neighbour extraction from the tessellation's
undirected edge list — the neighbours of `u` are the opposite endpoints of
every edge incident to `u`. -/
def neighbours (edges : List (Nat × Nat)) (u : Nat) : List Nat :=
  edges.filterMap fun e =>
    if e.1 = u then some e.2 else if e.2 = u then some e.1 else none

/-- Membership in the extracted neighbour list means an incident undirected
edge exists. -/
theorem mem_neighbours_iff (edges : List (Nat × Nat)) (u v : Nat) :
    v ∈ neighbours edges u ↔ ∃ e ∈ edges, e = (u, v) ∨ e = (v, u) := by
  simp only [neighbours, List.mem_filterMap]
  constructor
  · rintro ⟨e, he, hfe⟩
    by_cases h1 : e.1 = u
    · rw [if_pos h1] at hfe
      refine ⟨e, he, Or.inl ?_⟩
      obtain ⟨rfl⟩ : e.2 = v := by injection hfe
      exact Prod.ext h1 rfl
    · rw [if_neg h1] at hfe
      by_cases h2 : e.2 = u
      · rw [if_pos h2] at hfe
        refine ⟨e, he, Or.inr ?_⟩
        obtain ⟨rfl⟩ : e.1 = v := by injection hfe
        exact Prod.ext rfl h2
      · rw [if_neg h2] at hfe
        exact absurd hfe (by simp)
  · rintro ⟨e, he, hor | hor⟩
    · exact ⟨e, he, by rw [hor]; simp⟩
    · refine ⟨e, he, ?_⟩
      rw [hor]
      by_cases huv : v = u
      · simp [huv]
      · simp [huv]

/-- The incident-edge characterisation is symmetric in the two endpoints. -/
theorem neighbours_symm (edges : List (Nat × Nat)) (u v : Nat)
    (h : v ∈ neighbours edges u) : u ∈ neighbours edges v := by
  rw [mem_neighbours_iff] at h ⊢
  obtain ⟨e, he, hor⟩ := h
  exact ⟨e, he, hor.symm⟩

/-- Two distinct points are at strictly positive squared separation. -/
theorem ds2_pos_of_ne (p q : Point3) (h : p ≠ q) : 0 < ds2 p q := by
  rw [ds2]
  rcases lt_or_eq_of_le
      (by positivity :
        (0 : ℚ) ≤ (q.1 - p.1) ^ 2 + (q.2.1 - p.2.1) ^ 2 + (q.2.2 - p.2.2) ^ 2) with hlt | heq
  · exact hlt
  · exfalso
    apply h
    have n1 := sq_nonneg (q.1 - p.1)
    have n2 := sq_nonneg (q.2.1 - p.2.1)
    have n3 := sq_nonneg (q.2.2 - p.2.2)
    have h1 : (q.1 - p.1) ^ 2 = 0 := by linarith
    have h2 : (q.2.1 - p.2.1) ^ 2 = 0 := by linarith
    have h3 : (q.2.2 - p.2.2) ^ 2 = 0 := by linarith
    have e1 : p.1 = q.1 := by
      have := sub_eq_zero.mp (sq_eq_zero_iff.mp h1)
      exact this.symm
    have e2 : p.2.1 = q.2.1 := by
      have := sub_eq_zero.mp (sq_eq_zero_iff.mp h2)
      exact this.symm
    have e3 : p.2.2 = q.2.2 := by
      have := sub_eq_zero.mp (sq_eq_zero_iff.mp h3)
      exact this.symm
    exact Prod.ext e1 (Prod.ext e2 e3)

/-- The squared separation is symmetric in its endpoints. -/
theorem ds2_symm (p q : Point3) : ds2 p q = ds2 q p := by
  simp only [ds2]; ring

/-- Claim C4. For every edge of the extracted neighbour graph between vertices
with distinct positions: the neighbour relation is symmetric, the stored edge
length is equal at both endpoints and strictly positive, and the stored unit
direction at one endpoint is the exact negation of that at the other. -/
theorem edge_invariants (edges : List (Nat × Nat)) (pos : Nat → Point3) (u v : Nat)
    (hmem : v ∈ neighbours edges u) (hne : pos u ≠ pos v) :
    u ∈ neighbours edges v ∧
    edgeLen (pos u) (pos v) = edgeLen (pos v) (pos u) ∧
    0 < edgeLen (pos u) (pos v) ∧
    edgeDir (pos u) (pos v) + edgeDir (pos v) (pos u) = 0 := by
  have hsym : edgeLen (pos u) (pos v) = edgeLen (pos v) (pos u) := by
    rw [edgeLen, edgeLen, ds2_symm]
  refine ⟨neighbours_symm edges u v hmem, hsym, ?_, ?_⟩
  · rw [edgeLen]
    apply Real.sqrt_pos.mpr
    exact_mod_cast ds2_pos_of_ne (pos u) (pos v) hne
  · have hcomp : ∀ a b : ℝ, a / edgeLen (pos u) (pos v) + b / edgeLen (pos v) (pos u) = (a + b) / edgeLen (pos u) (pos v) := by
      intro a b
      rw [← hsym, div_add_div_same]
    rw [edgeDir, edgeDir, Prod.mk_add_mk, Prod.mk_add_mk]
    rw [hcomp, hcomp, hcomp]
    norm_num

/-- Witness for `edge_invariants`: the single edge `(0, 1)` between the
origin and the unit point on the x-axis. -/
theorem edge_invariants_witness :
    (1 ∈ neighbours [(0, 1)] 0) ∧
    ((fun n => if n = 0 then ((0 : ℚ), (0 : ℚ), (0 : ℚ)) else (1, 0, 0)) 0 ≠
      (fun n => if n = 0 then ((0 : ℚ), (0 : ℚ), (0 : ℚ)) else (1, 0, 0)) 1) ∧
    0 < edgeLen ((fun n => if n = 0 then ((0 : ℚ), (0 : ℚ), (0 : ℚ)) else (1, 0, 0)) 0)
      ((fun n => if n = 0 then ((0 : ℚ), (0 : ℚ), (0 : ℚ)) else (1, 0, 0)) 1) :=
  ⟨by decide, by decide,
    (edge_invariants [(0, 1)] (fun n => if n = 0 then ((0 : ℚ), (0 : ℚ), (0 : ℚ)) else (1, 0, 0))
      0 1 (by decide) (by decide)).2.2.1⟩

/-! ### Grid data model (`struct populations`, `struct grid`, `inputPars`) -/

/-- Structure populations of `lime.h` (lines 154–158): per-species level
populations and derived dust quantities at a vertex.  The collisional-rate
scratch pointer `partner` is per-pass working data and carries no grid state. -/
structure populations where
  pops : List ℚ
  knu : List ℚ
  dust : List ℚ
  dopb : ℚ
  binv : ℚ

/-- Structure grid of `lime.h` (lines 161–176).  Neighbour pointers are
modelled as vertex ids (`neigh`), per the snapshot serialisation. -/
structure grid where
  id : Int
  x : Point3
  vel : Point3
  a0 : List ℚ
  a1 : List ℚ
  a2 : List ℚ
  a3 : List ℚ
  a4 : List ℚ
  numNeigh : Int
  dir : List Point3
  neigh : List Nat
  w : List ℚ
  sink : Int
  nphot : Int
  conv : Int
  dens : List ℚ
  t : ℚ × ℚ
  nmol : List ℚ
  abun : List ℚ
  dopb : ℚ
  ds : List ℚ
  mol : List populations

/-- Structure inputPars of `lime.h` (lines 110–124). -/
structure inputPars where
  radius : ℚ
  radiusSqu : ℚ
  minScale : ℚ
  minScaleSqu : ℚ
  tcmb : ℚ
  taylorCutoff : ℚ
  ncell : Int
  sinkPoints : Int
  pIntensity : Int
  nImages : Int
  nSpecies : Int
  blend : Int
  outputfile : Option String
  binoutputfile : Option String
  inputfile : Option String
  gridfile : Option String
  pregrid : Option String
  restart : Option String
  dust : Option String
  sampling : Int
  collPart : Int
  lte_only : Int
  init_lte : Int
  antialias : Int
  polarization : Int
  doPregrid : Int
  nThreads : Int
  moldatfile : List String
  writeGridAtStage : Fin NUM_GRID_STAGES → Bool
  gridInFile : Option String
  gridOutFiles : Fin NUM_GRID_STAGES → Option String
  dataStageI : Nat
  nSolveIters : Int

/-! ### Grid snapshot serialisation (writeGrid / readGrid) -/

/-- Modelled from the spec: the tabular snapshot file — one optional block per
attribute group, each guarded by its data-stage bit, plus the data-stage
bitmask itself. -/
structure gridSnapshot where
  dataStageI : Nat
  posBlock : Option (Int × Point3 × Int)
  neighBlock : Option (Int × List Nat × List Point3 × List ℚ)
  velBlock : Option Point3
  densBlock : Option (List ℚ)
  abunBlock : Option (List ℚ × List ℚ)
  turbBlock : Option ℚ
  tempBlock : Option (ℚ × ℚ)
  acoeffBlock : Option (List ℚ × List ℚ × List ℚ × List ℚ × List ℚ)
  popsBlock : Option (List populations)

/-- Modelled from the spec: `writeGrid` (declared in `lime.h` line 327;
implementation not among the sources) serialises, for one vertex, exactly the
attribute groups whose bits are set in the stage-`k` mask, and records that
mask in the snapshot. -/
def writeGrid (g : grid) (stage : Nat) : gridSnapshot :=
  let m := stageMask stage
  { dataStageI := m
    posBlock := if bitIsSet m DS_bit_x then some (g.id, g.x, g.sink) else none
    neighBlock := if bitIsSet m DS_bit_neighbours then
        some (g.numNeigh, g.neigh, g.dir, g.ds) else none
    velBlock := if bitIsSet m DS_bit_velocity then some g.vel else none
    densBlock := if bitIsSet m DS_bit_density then some g.dens else none
    abunBlock := if bitIsSet m DS_bit_abundance then some (g.abun, g.nmol) else none
    turbBlock := if bitIsSet m DS_bit_turb_doppler then some g.dopb else none
    tempBlock := if bitIsSet m DS_bit_temperatures then some g.t else none
    acoeffBlock := if bitIsSet m DS_bit_ACOEFF then
        some (g.a0, g.a1, g.a2, g.a3, g.a4) else none
    popsBlock := if bitIsSet m DS_bit_populations then some g.mol else none }

/-- Modelled from the spec: `readGrid` (declared in `lime.h` line 303;
implementation not among the sources) rebuilds the vertex from the blocks
present in the snapshot, leaving absent attribute groups at defaults, and
returns the snapshot's data-stage mask alongside. -/
def readGrid (s : gridSnapshot) : grid × Nat :=
  ({ id := (s.posBlock.map fun b => b.1).getD 0
     x := (s.posBlock.map fun b => b.2.1).getD (0, 0, 0)
     sink := (s.posBlock.map fun b => b.2.2).getD 0
     numNeigh := (s.neighBlock.map fun b => b.1).getD 0
     neigh := (s.neighBlock.map fun b => b.2.1).getD []
     dir := (s.neighBlock.map fun b => b.2.2.1).getD []
     ds := (s.neighBlock.map fun b => b.2.2.2).getD []
     vel := s.velBlock.getD (0, 0, 0)
     dens := s.densBlock.getD []
     abun := (s.abunBlock.map fun b => b.1).getD []
     nmol := (s.abunBlock.map fun b => b.2).getD []
     dopb := s.turbBlock.getD 0
     t := s.tempBlock.getD (0, 0)
     a0 := (s.acoeffBlock.map fun b => b.1).getD []
     a1 := (s.acoeffBlock.map fun b => b.2.1).getD []
     a2 := (s.acoeffBlock.map fun b => b.2.2.1).getD []
     a3 := (s.acoeffBlock.map fun b => b.2.2.2.1).getD []
     a4 := (s.acoeffBlock.map fun b => b.2.2.2.2).getD []
     w := []
     nphot := 0
     conv := 0
     mol := s.popsBlock.getD [] }, s.dataStageI)

/-- Equality of one attribute group (numbered by its data-stage bit) between
two vertices. -/
def groupEq : Nat → grid → grid → Prop
  | 0 => fun r g => r.id = g.id ∧ r.x = g.x ∧ r.sink = g.sink
  | 1 => fun r g => r.numNeigh = g.numNeigh ∧ r.neigh = g.neigh ∧ r.dir = g.dir ∧ r.ds = g.ds
  | 2 => fun r g => r.vel = g.vel
  | 3 => fun r g => r.dens = g.dens
  | 4 => fun r g => r.abun = g.abun ∧ r.nmol = g.nmol
  | 5 => fun r g => r.dopb = g.dopb
  | 6 => fun r g => r.t = g.t
  | 7 => fun r g => r.a0 = g.a0 ∧ r.a1 = g.a1 ∧ r.a2 = g.a2 ∧ r.a3 = g.a3 ∧ r.a4 = g.a4
  | 8 => fun r g => r.mol = g.mol
  | _ => fun _ _ => True

/-- Claim C3. Writing a grid snapshot at any stage `k ∈ {1,2,3,4}` and reading
it back yields the stage-`k` data-completeness mask and identical values
(exact, hence within `1e-12` for populations) for every attribute group whose
bit is set in that mask. -/
theorem writeGrid_readGrid_roundtrip (g : grid) (k : Nat) (h1 : 1 ≤ k) (h4 : k ≤ 4) :
    (readGrid (writeGrid g k)).2 = stageMask k ∧
    ∀ b ∈ dsBits, bitIsSet (stageMask k) b = true →
      groupEq b (readGrid (writeGrid g k)).1 g := by
  constructor
  · interval_cases k <;> rfl
  · interval_cases k <;>
      (intro b hb hbit
       fin_cases hb <;>
         first
           | exact absurd hbit (by decide)
           | exact ⟨rfl, rfl, rfl, rfl, rfl⟩
           | exact ⟨rfl, rfl, rfl, rfl⟩
           | exact ⟨rfl, rfl, rfl⟩
           | exact ⟨rfl, rfl⟩
           | rfl)

/-- A vertex with every attribute at its default value. -/
def defaultGrid : grid :=
  { id := 0, x := (0, 0, 0), vel := (0, 0, 0), a0 := [], a1 := [], a2 := [], a3 := [],
    a4 := [], numNeigh := 0, dir := [], neigh := [], w := [], sink := 0, nphot := 0,
    conv := 0, dens := [], t := (0, 0), nmol := [], abun := [], dopb := 0, ds := [],
    mol := [⟨[1], [], [], 0, 0⟩] }

/-- Witness for `writeGrid_readGrid_roundtrip` at stage 4 on `defaultGrid`. -/
theorem writeGrid_readGrid_roundtrip_witness :
    1 ≤ 4 ∧ 4 ≤ 4 ∧
      ((readGrid (writeGrid defaultGrid 4)).2 = stageMask 4 ∧
        ∀ b ∈ dsBits, bitIsSet (stageMask 4) b = true →
          groupEq b (readGrid (writeGrid defaultGrid 4)).1 defaultGrid) :=
  ⟨by decide, by decide, writeGrid_readGrid_roundtrip defaultGrid 4 (by decide) (by decide)⟩

/-! ### Configuration claims (C8, C9) -/

/-- Modelled from the spec: the configuration step of `parseInput` (declared
in `lime.h` line 294; implementation not among the sources), which derives
the total vertex count from the interior and boundary counts:
`ncell = pIntensity + sinkPoints`. -/
def parseInputNcell (p : inputPars) : inputPars :=
  { p with ncell := p.pIntensity + p.sinkPoints }

/-- Claim C8. Every configuration record produced by the parse step satisfies
`ncell = pIntensity + sinkPoints`. -/
theorem ncell_eq_pIntensity_add_sinkPoints (p : inputPars) :
    (parseInputNcell p).ncell = (parseInputNcell p).pIntensity + (parseInputNcell p).sinkPoints :=
  rfl

/-- Modelled from the spec: `writeGridIfRequired` (declared in `lime.h` line
330; implementation not among the sources) writes the stage-`k` snapshot
exactly when the per-stage flag `writeGridAtStage[k]` is set. -/
def writeGridIfRequired (p : inputPars) (g : grid) (k : Fin NUM_GRID_STAGES) :
    Option gridSnapshot :=
  if p.writeGridAtStage k then some (writeGrid g (k.val + 1)) else none

/-- Claim C9. There are exactly four grid snapshot stages: the configuration
record carries exactly four per-stage write flags and four per-stage output
file names (both indexed by `NUM_GRID_STAGES = 4`), and a snapshot may be
requested after any of the four stages. -/
theorem four_grid_stages :
    NUM_GRID_STAGES = 4 ∧
    (∀ p : inputPars,
      ((List.finRange NUM_GRID_STAGES).map p.writeGridAtStage).length = 4 ∧
      ((List.finRange NUM_GRID_STAGES).map p.gridOutFiles).length = 4) ∧
    (∀ (p : inputPars) (g : grid) (k : Fin NUM_GRID_STAGES),
      p.writeGridAtStage k = true →
        writeGridIfRequired p g k = some (writeGrid g (k.val + 1))) := by
  refine ⟨rfl, fun p => ⟨?_, ?_⟩, ?_⟩
  · simp [NUM_GRID_STAGES]
  · simp [NUM_GRID_STAGES]
  · intro p g k hk
    simp [writeGridIfRequired, hk]

/-- A configuration record with every option at its default, requesting a
snapshot after every stage. -/
def defaultPars : inputPars :=
  { radius := 0, radiusSqu := 0, minScale := 0, minScaleSqu := 0, tcmb := 0,
    taylorCutoff := 0, ncell := 0, sinkPoints := 0, pIntensity := 0, nImages := 0,
    nSpecies := 0, blend := 0, outputfile := none, binoutputfile := none,
    inputfile := none, gridfile := none, pregrid := none, restart := none,
    dust := none, sampling := 0, collPart := 0, lte_only := 0, init_lte := 0,
    antialias := 0, polarization := 0, doPregrid := 0, nThreads := 1,
    moldatfile := [], writeGridAtStage := fun _ => true, gridInFile := none,
    gridOutFiles := fun _ => none, dataStageI := 0, nSolveIters := 0 }

/-- The first snapshot stage, as an index into the four per-stage arrays. -/
def stage0 : Fin NUM_GRID_STAGES := ⟨0, by decide⟩

/-- Witness for `four_grid_stages`: with the flag for stage index 0 set, the
stage-1 snapshot is produced. -/
theorem four_grid_stages_witness :
    defaultPars.writeGridAtStage stage0 = true ∧
      writeGridIfRequired defaultPars defaultGrid stage0 = some (writeGrid defaultGrid 1) :=
  ⟨rfl, four_grid_stages.2.2 defaultPars defaultGrid stage0 rfl⟩

end Lime
